import Mathlib

/-!
Shallow embedding of the core of src/app.py (a Flask service that turns a
tabular billing file into per-row invoice records plus a rendered sheet).

Modelling conventions, fixed once for the whole file:
* Python floats are modelled as exact rationals plus explicit non-finite
  values (PyNum below); decimal parsing and half-even display rounding are
  exact in this model.
* A pandas row is an association list from header string to cell value; a
  missing column is a missing key; an empty cell in a present column is the
  float NaN, exactly as pandas materialises it.
* datetime.now() is modelled by an explicit parameter of type Date: the
  request processes against one fixed current date.
* String.replace / strip / float() / strptime / strftime are modelled
  character-exactly on lists of characters (the CPython grammar for float()
  is reproduced except for underscore digit grouping, which no claim
  touches; str() of a finite float is modelled by an injective placeholder
  rendering, which no claim evaluates).
-/

/-- The value of a Python float: a finite rational, a signed infinity, or NaN. -/
inductive PyNum where
  | finite (q : ℚ)
  | inf (neg : Bool)
  | nan
deriving DecidableEq

/-- A calendar date (what the code extracts from datetime objects). -/
structure Date where
  year : ℕ
  month : ℕ
  day : ℕ
deriving DecidableEq

/-- A dynamically typed pandas cell / Python value as the code consumes it:
None, a number (int/float, NaN included), text, or a datetime. -/
inductive PyValue where
  | none
  | num (x : PyNum)
  | str (s : String)
  | date (d : Date)
deriving DecidableEq

/-- A spreadsheet row: ordered association list from header to cell. -/
abbrev Row := List (String × PyValue)

/-- Key lookup in a row, first match wins (pandas columns are distinct). -/
def rowLookup : Row → String → Option PyValue
  | [], _ => Option.none
  | (k, v) :: r, key => if k = key then Option.some v else rowLookup r key

/-- Series.get with no default: None when the column is missing. -/
def rowGet (row : Row) (k : String) : PyValue :=
  (rowLookup row k).getD PyValue.none

/-- Series.get with an explicit default (row.get(k, d) in the source). -/
def rowGetD (row : Row) (k : String) (d : PyValue) : PyValue :=
  (rowLookup row k).getD d

/-- Whether a column is present in the row. -/
def containsKey (row : Row) (k : String) : Bool :=
  (rowLookup row k).isSome

/-- pd.notna: false exactly on None and float NaN. -/
def pdNotna : PyValue → Bool
  | PyValue.none => false
  | PyValue.num PyNum.nan => false
  | _ => true

/-- Python truthiness of a cell value (None and 0 and "" are falsy; NaN is truthy). -/
def truthy : PyValue → Bool
  | PyValue.none => false
  | PyValue.num (PyNum.finite q) => decide (q ≠ 0)
  | PyValue.num _ => true
  | PyValue.str s => decide (s ≠ "")
  | PyValue.date _ => true

/-- Python `a or b` on cell values. -/
def pyOr (a b : PyValue) : PyValue := if truthy a then a else b

/-- Zero-pad a numeral to two digits (strftime %d / %m). -/
def pad2 (n : ℕ) : String := if n < 10 then "0" ++ toString n else toString n

/-- strftime("%d/%m/%Y") on a date. -/
def fmtDMY (d : Date) : String :=
  pad2 d.day ++ "/" ++ pad2 d.month ++ "/" ++ toString d.year

/-- Modelled repr of a finite float for str(); injective placeholder, never
evaluated by any claim (only string cells flow into the rendered text in the
verified scenarios). -/
def floatRepr (q : ℚ) : String :=
  if q.den = 1 then toString q.num ++ ".0" else toString q.num ++ "/" ++ toString q.den

/-- str(datetime(y, m, d)) as CPython prints a midnight datetime. -/
def dateRepr (d : Date) : String :=
  toString d.year ++ "-" ++ pad2 d.month ++ "-" ++ pad2 d.day ++ " 00:00:00"

/-- Python str() on a cell value. -/
def pyStr : PyValue → String
  | PyValue.none => "None"
  | PyValue.num (PyNum.finite q) => floatRepr q
  | PyValue.num (PyNum.inf b) => if b then "-inf" else "inf"
  | PyValue.num PyNum.nan => "nan"
  | PyValue.str s => s
  | PyValue.date d => dateRepr d

/-- IEEE subtraction on modelled floats (used for the rendered net total). -/
def pySub : PyNum → PyNum → PyNum
  | PyNum.finite a, PyNum.finite b => PyNum.finite (a - b)
  | PyNum.nan, _ => PyNum.nan
  | _, PyNum.nan => PyNum.nan
  | PyNum.inf a, PyNum.inf b => if a = b then PyNum.nan else PyNum.inf a
  | PyNum.inf a, PyNum.finite _ => PyNum.inf a
  | PyNum.finite _, PyNum.inf b => PyNum.inf (!b)

/-! Character and digit utilities. -/

/-- ASCII decimal digit test. -/
def isDigitCh (c : Char) : Bool := decide ('0' ≤ c) && decide (c ≤ '9')

/-- Numeric value of a digit character. -/
def digitVal (c : Char) : ℕ := c.toNat - 48

/-- Digit character for a value below ten. -/
def digitChar : ℕ → Char
  | 0 => '0' | 1 => '1' | 2 => '2' | 3 => '3' | 4 => '4'
  | 5 => '5' | 6 => '6' | 7 => '7' | 8 => '8' | 9 => '9'
  | _ => '*'

/-- Value of a digit string read left to right. -/
def digitsToNat (l : List Char) : ℕ :=
  l.foldl (fun acc c => 10 * acc + digitVal c) 0

/-- Fuel-driven decimal rendering of a natural (fuel keeps it structural so
the kernel can evaluate it). -/
def natToDigitsAux : ℕ → ℕ → List Char
  | 0, _ => []
  | fuel + 1, n =>
    if n < 10 then [digitChar n]
    else natToDigitsAux fuel (n / 10) ++ [digitChar (n % 10)]

/-- Decimal digit string of a natural number, most significant first. -/
def natToDigits (n : ℕ) : List Char := natToDigitsAux (n + 1) n

/-- The two digit characters of a value below one hundred. -/
def twoDig (c : ℕ) : List Char := [digitChar (c / 10), digitChar (c % 10)]

/-- Python whitespace characters relevant to strip() and float(). -/
def isPySpace (c : Char) : Bool :=
  c = ' ' || c = '\t' || c = '\n' || c = '\r' || c = '\x0b' || c = '\x0c'

/-- str.strip(): drop whitespace from both ends. -/
def stripWs (l : List Char) : List Char :=
  ((l.dropWhile isPySpace).reverse.dropWhile isPySpace).reverse

/-- Whether the second list begins with the first. -/
def listStartsWith : List Char → List Char → Bool
  | [], _ => true
  | _ :: _, [] => false
  | p :: ps, c :: cs => p = c && listStartsWith ps cs

/-- Fuel-driven left-to-right non-overlapping substring replacement, the
semantics of str.replace for a nonempty pattern (all uses in the source have
nonempty patterns).  Fuel at least the list length makes it total. -/
def replaceFuel (pat rep : List Char) : ℕ → List Char → List Char
  | _, [] => []
  | 0, l => l
  | fuel + 1, c :: cs =>
    if listStartsWith pat (c :: cs) then
      rep ++ replaceFuel pat rep fuel ((c :: cs).drop pat.length)
    else c :: replaceFuel pat rep fuel cs

/-- str.replace on character lists with adequate fuel. -/
def pyReplaceL (pat rep l : List Char) : List Char := replaceFuel pat rep l.length l

/-- Insert a separator after every third character, input reversed. -/
def group3rev (sep : Char) : List Char → List Char
  | a :: b :: c :: d :: rest => a :: b :: c :: sep :: group3rev sep (d :: rest)
  | l => l

/-- Thousands grouping of a digit string (the {:,} format machinery). -/
def insertSep (sep : Char) (l : List Char) : List Char :=
  (group3rev sep l.reverse).reverse

/-! The float() grammar of CPython (minus underscore grouping) and the
currency normalizer limpar_moeda of src/app.py lines 46-52. -/

/-- Exponent part after the letter e: optional sign then nonempty digits. -/
def parseExpPart (l : List Char) : Option ℤ :=
  let sgn : Bool × List Char :=
    if l.head? = Option.some '+' then (false, l.tail)
    else if l.head? = Option.some '-' then (true, l.tail)
    else (false, l)
  if sgn.2 ≠ [] ∧ sgn.2.all isDigitCh then
    Option.some (if sgn.1 then -(digitsToNat sgn.2 : ℤ) else (digitsToNat sgn.2 : ℤ))
  else Option.none

/-- Unsigned decimal part of float(): digits [. digits] | . digits, with an
optional exponent, consuming the whole input. -/
def parseDecimal (l : List Char) : Option ℚ :=
  let ip := l.takeWhile isDigitCh
  let r1 := l.dropWhile isDigitCh
  if r1 = [] then
    (if ip = [] then Option.none else Option.some (digitsToNat ip : ℚ))
  else if r1.head? = Option.some '.' then
    let r2 := r1.tail
    let fp := r2.takeWhile isDigitCh
    let r3 := r2.dropWhile isDigitCh
    if ip = [] ∧ fp = [] then Option.none
    else
      let base : ℚ := (digitsToNat ip : ℚ) + (digitsToNat fp : ℚ) / (10 : ℚ) ^ fp.length
      if r3 = [] then Option.some base
      else if r3.head? = Option.some 'e' ∨ r3.head? = Option.some 'E' then
        (parseExpPart r3.tail).map (fun k => base * (10 : ℚ) ^ k)
      else Option.none
  else if (r1.head? = Option.some 'e' ∨ r1.head? = Option.some 'E') ∧ ip ≠ [] then
    (parseExpPart r1.tail).map (fun k => (digitsToNat ip : ℚ) * (10 : ℚ) ^ k)
  else Option.none

/-- float() on a character list: strip whitespace, optional sign, then
nan / inf / infinity (case-insensitive) or a finite decimal. -/
def pyFloatL (l0 : List Char) : Option PyNum :=
  let l := stripWs l0
  let sgn : Bool × List Char :=
    if l.head? = Option.some '+' then (false, l.tail)
    else if l.head? = Option.some '-' then (true, l.tail)
    else (false, l)
  let low := sgn.2.map Char.toLower
  if low = ['n', 'a', 'n'] then Option.some PyNum.nan
  else if low = ['i', 'n', 'f'] ∨ low = ['i', 'n', 'f', 'i', 'n', 'i', 't', 'y'] then
    Option.some (PyNum.inf sgn.1)
  else (parseDecimal sgn.2).map (fun q => PyNum.finite (if sgn.1 then -q else q))

/-- The replace chain of limpar_moeda:
str(v).replace('R$', '').replace('.', '').replace(',', '.').strip(). -/
def cleanCurrency (s : String) : List Char :=
  stripWs (pyReplaceL [','] ['.'] (pyReplaceL ['.'] [] (pyReplaceL ['R', '$'] [] s.toList)))

/-- limpar_moeda (src/app.py lines 46-52): numbers pass through unchanged;
anything else is stringified, cleaned and parsed as float, any failure
yielding 0.0.  Total by construction: the except-branch is the none case. -/
def limpar_moeda : PyValue → PyNum
  | PyValue.num x => x
  | v =>
    match pyFloatL (cleanCurrency (pyStr v)) with
    | Option.some x => x
    | Option.none => PyNum.finite 0

/-- A canonical currency string per the claim: optional "R$ " then digits
grouped in threes by '.', then ',' and exactly two decimal digits. -/
def mkCanonical (sym : Bool) (n c : ℕ) : String :=
  String.mk ((if sym then ['R', '$', ' '] else []) ++
    insertSep '.' (natToDigits n) ++ ',' :: twoDig c)

/-! The display format f"R$ {v:,.2f}".replace('.', ',') of the transformer. -/

/-- Round-half-even of a nonnegative rational to an integer. -/
def rheNat (x : ℚ) : ℕ :=
  let f : ℕ := x.num.toNat / x.den
  let r : ℚ := x - (f : ℚ)
  if r < 1 / 2 then f else if 1 / 2 < r then f + 1 else if f % 2 = 0 then f else f + 1

/-- Python format spec {:,.2f} on a float value. -/
def formatComma2f : PyNum → String
  | PyNum.finite q =>
    let sgn := if q < 0 then "-" else ""
    let n : ℕ := rheNat (|q| * 100)
    sgn ++ String.mk (insertSep ',' (natToDigits (n / 100))) ++ "." ++ String.mk (twoDig (n % 100))
  | PyNum.inf b => if b then "-inf" else "inf"
  | PyNum.nan => "nan"

/-- The amount display string of the transformer:
f"R$ {v:,.2f}".replace('.', ',') (src/app.py lines 233-235). -/
def brlFmt (x : PyNum) : String :=
  String.mk (pyReplaceL ['.'] [','] ("R$ " ++ formatComma2f x).toList)

/-! Customer-name resolution (src/app.py lines 206-220). -/

/-- The exact candidate headers, in source priority order. -/
def buscas : List String :=
  ["Resp. Fin", "Resp Fin", "Resp. Fin.", "Nome", "Cliente", "Razão Social"]

/-- The normalized fallback keys of pass 2. -/
def fallbackKeys : List String := ["respfin", "nome", "cliente", "razaosocial"]

/-- Header normalization of pass 2: lower(), drop '.', drop ' '. -/
def normHeader (c : String) : String :=
  String.mk (pyReplaceL [' '] [] (pyReplaceL ['.'] [] (c.toList.map Char.toLower)))

/-- Pass 1 loop: first candidate present in the columns whose cell is notna;
falls back to the starting value 'Consumidor'. -/
def pass1 (cols : List String) (row : Row) : List String → PyValue
  | [] => PyValue.str "Consumidor"
  | b :: bs =>
    if cols.contains b && pdNotna (rowGet row b) then rowGet row b
    else pass1 cols row bs

/-- Pass 2 loop: first column whose normalized header is a fallback key and
whose cell is notna (the break sits inside the inner test, so a key match
with an na cell keeps scanning). -/
def pass2 (row : Row) : List String → Option PyValue
  | [] => Option.none
  | c :: cs =>
    if fallbackKeys.contains (normHeader c) then
      (if pdNotna (rowGet row c) then Option.some (rowGet row c) else pass2 row cs)
    else pass2 row cs

/-- The name-resolution block: run pass 1 from 'Consumidor'; rerun with
pass 2 whenever the value afterwards still equals 'Consumidor'. -/
def resolveNome (cols : List String) (row : Row) : PyValue :=
  let n1 := pass1 cols row buscas
  if n1 = PyValue.str "Consumidor" then
    match pass2 row cols with
    | Option.some v => v
    | Option.none => n1
  else n1

/-- Modelled from the claim C4 wording only (not from the source): pass 1
returns the first present, non-empty, non-null candidate; pass 2 runs only
when pass 1 found nothing. -/
def resolveNomeClaimed (cols : List String) (row : Row) : PyValue :=
  let hit := fun v => pdNotna v && !(v = PyValue.str "") && !(v = PyValue.none)
  match buscas.find? (fun b => cols.contains b && hit (rowGet row b)) with
  | Option.some b => rowGet row b
  | Option.none =>
    match cols.find? (fun c => fallbackKeys.contains (normHeader c) && hit (rowGet row c)) with
    | Option.some c => rowGet row c
    | Option.none => PyValue.str "Consumidor"

/-! Date resolution (src/app.py lines 186-204). -/

/-- The %Y field: exactly four digits. -/
def parseY4 : List Char → Option (ℕ × List Char)
  | a :: b :: c :: d :: rest =>
    if [a, b, c, d].all isDigitCh then Option.some (digitsToNat [a, b, c, d], rest)
    else Option.none
  | _ => Option.none

/-- The %m field, CPython regex 1[0-2]|0[1-9]|[1-9] with greedy alternation. -/
def parseMonth : List Char → Option (ℕ × List Char)
  | '1' :: b :: rest =>
    if decide ('0' ≤ b) && decide (b ≤ '2') then Option.some (10 + digitVal b, rest)
    else Option.some (1, b :: rest)
  | '0' :: b :: rest =>
    if decide ('1' ≤ b) && decide (b ≤ '9') then Option.some (digitVal b, rest)
    else Option.none
  | c :: rest =>
    if decide ('1' ≤ c) && decide (c ≤ '9') then Option.some (digitVal c, rest)
    else Option.none
  | [] => Option.none

/-- The %d field, CPython regex 3[01]|[12][0-9]|0[1-9]|[1-9]. -/
def parseDay : List Char → Option (ℕ × List Char)
  | '3' :: b :: rest =>
    if b = '0' ∨ b = '1' then Option.some (30 + digitVal b, rest)
    else Option.some (3, b :: rest)
  | '1' :: b :: rest =>
    if isDigitCh b then Option.some (10 + digitVal b, rest) else Option.some (1, b :: rest)
  | '2' :: b :: rest =>
    if isDigitCh b then Option.some (20 + digitVal b, rest) else Option.some (2, b :: rest)
  | '0' :: b :: rest =>
    if decide ('1' ≤ b) && decide (b ≤ '9') then Option.some (digitVal b, rest)
    else Option.none
  | c :: rest =>
    if decide ('1' ≤ c) && decide (c ≤ '9') then Option.some (digitVal c, rest)
    else Option.none
  | [] => Option.none

/-- Gregorian leap year. -/
def isLeap (y : ℕ) : Bool := (y % 4 = 0 && y % 100 ≠ 0) || y % 400 = 0

/-- Days in a month, for datetime's validity check. -/
def daysInMonth (y m : ℕ) : ℕ :=
  if m = 2 then (if isLeap y then 29 else 28)
  else if m = 4 ∨ m = 6 ∨ m = 9 ∨ m = 11 then 30 else 31

/-- datetime.strptime(s, "%Y-%m-%d"): full-match parse then datetime's
range validation (year at least 1, day within the month). -/
def strptimeYMD (s : String) : Option Date :=
  match parseY4 s.toList with
  | Option.none => Option.none
  | Option.some (y, r1) =>
    if r1.head? = Option.some '-' then
      match parseMonth r1.tail with
      | Option.none => Option.none
      | Option.some (m, r3) =>
        if r3.head? = Option.some '-' then
          match parseDay r3.tail with
          | Option.none => Option.none
          | Option.some (d, r5) =>
            if r5 = [] ∧ 1 ≤ y ∧ d ≤ daysInMonth y m then Option.some ⟨y, m, d⟩
            else Option.none
        else Option.none
    else Option.none

/-- The per-row emission-date block (src/app.py lines 186-204): default is
today's date; 'escolher' with a nonempty custom date tries strptime and
silently keeps the default on failure; 'venda' reads the Data column when
present and notna, formatting datetime cells and stringifying the rest. -/
def resolveDate (modo custom : String) (today : Date) (cols : List String) (row : Row) : String :=
  if modo = "escolher" ∧ custom ≠ "" then
    match strptimeYMD custom with
    | Option.some d => fmtDMY d
    | Option.none => fmtDMY today
  else if modo = "venda" then
    if cols.contains "Data" && pdNotna (rowGet row "Data") then
      match rowGet row "Data" with
      | PyValue.date d => fmtDMY d
      | v => pyStr v
    else fmtDMY today
  else fmtDMY today

/-- request.form.get(key, default). -/
def formGetD (form : List (String × String)) (k d : String) : String :=
  (form.lookup k).getD d

/-! The invoice row transformer (src/app.py lines 181-316). -/

/-- limpar_moeda(row.get(col, 0)): the canonical amount of one cell. -/
def amountField (row : Row) (col : String) : PyNum :=
  limpar_moeda (rowGetD row col (PyValue.num (PyNum.finite 0)))

/-- row.get('CPF/CNPJ') or row.get('CPF') or '-' (line 230). -/
def cpfField (row : Row) : PyValue :=
  pyOr (rowGet row "CPF/CNPJ") (pyOr (rowGet row "CPF") (PyValue.str "-"))

/-- row.get('CPF Resp', row.get('CPF/CNPJ', '-')) (line 237). -/
def cpfRespField (row : Row) : PyValue :=
  rowGetD row "CPF Resp" (rowGetD row "CPF/CNPJ" (PyValue.str "-"))

/-- f"{row.get('Espécie', 'Serviço')} - {row.get('Título', '')}" (line 284). -/
def descricaoField (row : Row) : String :=
  pyStr (rowGetD row "Espécie" (PyValue.str "Serviço")) ++ " - " ++
    pyStr (rowGetD row "Título" (PyValue.str ""))

/-- The item_dados record built per row (lines 225-241). -/
structure ItemDados where
  temp_id : ℕ
  nome_arquivo : String
  respFin : PyValue
  origem : PyValue
  cpf : PyValue
  titulo : PyValue
  especie : PyValue
  vDevido : String
  vReceb : String
  vDesc : String
  pContas : PyValue
  cpfResp : PyValue
  data : String
  venc : String
  arquivo : String
deriving DecidableEq

/-- The observable cells of the rendered workbook (lines 243-307). -/
structure Sheet where
  banner : String
  numero : ℕ
  dataEmissao : String
  nome : PyValue
  cpf : PyValue
  origem : PyValue
  descricao : String
  venc : String
  desconto : PyNum
  devido : PyNum
  liquido : PyNum
deriving DecidableEq

/-- One loop iteration of processar_notas minus the serialization side
effects: builds the item_dados record and the rendered sheet for the row at
zero-based index i. -/
def processRow (modo custom : String) (today : Date) (cols : List String)
    (i : ℕ) (row : Row) : ItemDados × Sheet :=
  let data_emissao := resolveDate modo custom today cols row
  let nome_cliente := resolveNome cols row
  let val_devido := amountField row "V. Devido"
  let val_desc := amountField row "V. Desc"
  let venc := pyStr (rowGetD row "Venc" (PyValue.str (fmtDMY today)))
  let item : ItemDados :=
    { temp_id := i
      nome_arquivo := "NF-" ++ toString (1000 + i) ++ " - " ++ (pyStr nome_cliente).take 30
      respFin := nome_cliente
      origem := rowGetD row "Origem" (PyValue.str "-")
      cpf := cpfField row
      titulo := rowGetD row "Título" (PyValue.str "Serviço")
      especie := rowGetD row "Espécie" (PyValue.str "NF-e")
      vDevido := brlFmt val_devido
      vReceb := brlFmt (amountField row "V. Receb")
      vDesc := brlFmt val_desc
      pContas := rowGetD row "P. Contas" (PyValue.str "Fidelizado")
      cpfResp := cpfRespField row
      data := data_emissao
      venc := venc
      arquivo := "" }
  let sheet : Sheet :=
    { banner := "MD SISTEMAS - NOTA FISCAL DE SERVIÇO"
      numero := 1000 + i
      dataEmissao := data_emissao
      nome := nome_cliente
      cpf := item.cpf
      origem := item.origem
      descricao := descricaoField row
      venc := venc
      desconto := val_desc
      devido := val_devido
      liquido := pySub val_devido val_desc }
  (item, sheet)

/-- A throwaway record for getD-style indexing in statements. -/
def defaultItem : ItemDados :=
  { temp_id := 0, nome_arquivo := "", respFin := PyValue.none, origem := PyValue.none
    cpf := PyValue.none, titulo := PyValue.none, especie := PyValue.none
    vDevido := "", vReceb := "", vDesc := "", pContas := PyValue.none
    cpfResp := PyValue.none, data := "", venc := "", arquivo := "" }

/-- The row loop of processar_notas, pure part: one item per row, in input
order, indices counting up from the start value. -/
def processar_notas (modo custom : String) (today : Date) (cols : List String) :
    ℕ → List Row → List ItemDados
  | _, [] => []
  | i, r :: rs =>
    (processRow modo custom today cols i r).1 ::
      processar_notas modo custom today cols (i + 1) rs

/-- One loop iteration with the renderer's fallibility made explicit: the
workbook serialization may raise (host behaviour), modelled by an arbitrary
render function; on success its blob is attached to the record. -/
def processRowE (render : Sheet → Except String String) (modo custom : String)
    (today : Date) (cols : List String) (i : ℕ) (row : Row) : Except String ItemDados :=
  let pr := processRow modo custom today cols i row
  match render pr.2 with
  | Except.ok blob => Except.ok { pr.1 with arquivo := blob }
  | Except.error e => Except.error e

/-- The whole loop under the route's single try/except: the first raising
row aborts everything (there is no per-row handler in the source), so the
request yields either a full list or one error. -/
def processarE (render : Sheet → Except String String) (modo custom : String)
    (today : Date) (cols : List String) : ℕ → List Row → Except String (List ItemDados)
  | _, [] => Except.ok []
  | i, r :: rs =>
    match processRowE render modo custom today cols i r with
    | Except.error e => Except.error e
    | Except.ok x =>
      match processarE render modo custom today cols (i + 1) rs with
      | Except.error e => Except.error e
      | Except.ok xs => Except.ok (x :: xs)

/-! Basic facts about digits and decimal renderings. -/

theorem digitChar_digit : ∀ k, k < 10 → isDigitCh (digitChar k) = true := by decide

theorem digitVal_digitChar : ∀ k, k < 10 → digitVal (digitChar k) = k := by decide

theorem digitChar_toLower : ∀ k, k < 10 → (digitChar k).toLower = digitChar k := by decide

theorem digit_ne {c x : Char} (hc : isDigitCh c = true) (hx : isDigitCh x = false) : c ≠ x := by
  intro h
  subst h
  rw [hc] at hx
  cases hx

theorem digitsToNat_append (l : List Char) (c : Char) :
    digitsToNat (l ++ [c]) = 10 * digitsToNat l + digitVal c := by
  simp [digitsToNat, List.foldl_append]

theorem natToDigitsAux_irrel :
    ∀ f g n, n < f → n < g → natToDigitsAux f n = natToDigitsAux g n := by
  intro f
  induction f with
  | zero => intro g n h; omega
  | succ f ih =>
    intro g n hf hg
    cases g with
    | zero => omega
    | succ g =>
      simp only [natToDigitsAux]
      by_cases h10 : n < 10
      · simp [h10]
      · have hd : n / 10 < n := Nat.div_lt_self (by omega) (by omega)
        simp only [h10, if_false]
        rw [ih g (n / 10) (by omega) (by omega)]

theorem natToDigits_unfold (n : ℕ) :
    natToDigits n =
      if n < 10 then [digitChar n] else natToDigits (n / 10) ++ [digitChar (n % 10)] := by
  have h1 : natToDigits n =
      if n < 10 then [digitChar n] else natToDigitsAux n (n / 10) ++ [digitChar (n % 10)] := rfl
  rw [h1]
  by_cases h10 : n < 10
  · simp [h10]
  · have hd : n / 10 < n := Nat.div_lt_self (by omega) (by omega)
    simp only [h10, if_false]
    congr 1
    exact natToDigitsAux_irrel n (n / 10 + 1) (n / 10) (by omega) (by omega)

theorem natToDigits_mem (n : ℕ) : ∀ c ∈ natToDigits n, ∃ k, k < 10 ∧ c = digitChar k := by
  induction n using Nat.strong_induction_on with
  | _ n ih =>
    rw [natToDigits_unfold]
    by_cases h10 : n < 10
    · simp only [h10, if_true, List.mem_singleton]
      intro c hc
      exact ⟨n, h10, hc⟩
    · simp only [h10, if_false, List.mem_append, List.mem_singleton]
      intro c hc
      rcases hc with hc | hc
      · exact ih (n / 10) (Nat.div_lt_self (by omega) (by omega)) c hc
      · exact ⟨n % 10, Nat.mod_lt _ (by omega), hc⟩

theorem natToDigits_all_digit (n : ℕ) : ∀ c ∈ natToDigits n, isDigitCh c = true := by
  intro c hc
  obtain ⟨k, hk, rfl⟩ := natToDigits_mem n c hc
  exact digitChar_digit k hk

theorem natToDigits_ne_nil (n : ℕ) : natToDigits n ≠ [] := by
  rw [natToDigits_unfold]
  by_cases h10 : n < 10 <;> simp [h10]

theorem digitsToNat_natToDigits (n : ℕ) : digitsToNat (natToDigits n) = n := by
  induction n using Nat.strong_induction_on with
  | _ n ih =>
    rw [natToDigits_unfold]
    by_cases h10 : n < 10
    · simp only [h10, if_true]
      simp [digitsToNat, digitVal_digitChar n h10]
    · simp only [h10, if_false]
      rw [digitsToNat_append, ih (n / 10) (Nat.div_lt_self (by omega) (by omega)),
        digitVal_digitChar _ (Nat.mod_lt _ (by omega))]
      omega

theorem twoDig_mem (c : ℕ) (h : c < 100) : ∀ x ∈ twoDig c, ∃ k, k < 10 ∧ x = digitChar k := by
  intro x hx
  simp only [twoDig, List.mem_cons, List.mem_singleton, List.not_mem_nil, or_false] at hx
  rcases hx with rfl | rfl
  · exact ⟨c / 10, by omega, rfl⟩
  · exact ⟨c % 10, Nat.mod_lt _ (by omega), rfl⟩

theorem twoDig_all_digit (c : ℕ) (h : c < 100) : ∀ x ∈ twoDig c, isDigitCh x = true := by
  simp only [twoDig, List.mem_cons, List.mem_singleton, List.not_mem_nil, or_false]
  intro x hx
  rcases hx with rfl | rfl
  · exact digitChar_digit _ (by omega)
  · exact digitChar_digit _ (Nat.mod_lt _ (by omega))

theorem digitsToNat_twoDig (c : ℕ) (h : c < 100) : digitsToNat (twoDig c) = c := by
  simp only [twoDig, digitsToNat, List.foldl]
  rw [digitVal_digitChar _ (by omega), digitVal_digitChar _ (Nat.mod_lt _ (by omega))]
  omega

/-! Facts about the str.replace model. -/

theorem replaceFuel_nil (pat rep : List Char) (f : ℕ) : replaceFuel pat rep f [] = [] := by
  cases f <;> rfl

theorem replaceFuel_no_occur {p : Char} (ps rep : List Char) :
    ∀ (l : List Char) (f : ℕ), p ∉ l → replaceFuel (p :: ps) rep f l = l := by
  intro l
  induction l with
  | nil => intro f _; exact replaceFuel_nil ..
  | cons c cs ih =>
    intro f h
    cases f with
    | zero => rfl
    | succ f =>
      have hpc : p ≠ c := fun he => h (he ▸ List.mem_cons_self _ _)
      have hsw : listStartsWith (p :: ps) (c :: cs) = false := by
        simp [listStartsWith, hpc]
      simp only [replaceFuel, hsw, Bool.false_eq_true, if_false]
      rw [ih f (fun hm => h (List.mem_cons_of_mem _ hm))]

theorem replaceFuel_single_empty (a : Char) :
    ∀ (l : List Char) (f : ℕ), l.length ≤ f →
      replaceFuel [a] [] f l = l.filter (fun c => !(c == a)) := by
  intro l
  induction l with
  | nil => intro f _; exact replaceFuel_nil ..
  | cons c cs ih =>
    intro f hf
    cases f with
    | zero => simp at hf
    | succ f =>
      have hlen : cs.length ≤ f := by simp only [List.length_cons] at hf; omega
      by_cases hac : a = c
      · subst hac
        have hsw : listStartsWith [a] (a :: cs) = true := by simp [listStartsWith]
        simp only [replaceFuel, hsw, if_true, List.nil_append, List.length_cons,
          List.length_nil, List.drop_succ_cons, List.drop_zero]
        rw [ih f hlen]
        simp [List.filter_cons]
      · have hsw : listStartsWith [a] (c :: cs) = false := by simp [listStartsWith, hac]
        simp only [replaceFuel, hsw, Bool.false_eq_true, if_false, List.filter_cons]
        have hbe : (c == a) = false := by simp [Ne.symm hac]
        rw [hbe, ih f hlen]
        simp

theorem replaceFuel_single_map (a b : Char) :
    ∀ (l : List Char) (f : ℕ), l.length ≤ f →
      replaceFuel [a] [b] f l = l.map (fun c => if c = a then b else c) := by
  intro l
  induction l with
  | nil => intro f _; exact replaceFuel_nil ..
  | cons c cs ih =>
    intro f hf
    cases f with
    | zero => simp at hf
    | succ f =>
      have hlen : cs.length ≤ f := by simp only [List.length_cons] at hf; omega
      by_cases hac : a = c
      · subst hac
        have hsw : listStartsWith [a] (a :: cs) = true := by simp [listStartsWith]
        simp only [replaceFuel, hsw, if_true, List.length_cons, List.length_nil,
          List.drop_succ_cons, List.drop_zero, List.map_cons]
        rw [ih f hlen]
        simp
      · have hsw : listStartsWith [a] (c :: cs) = false := by simp [listStartsWith, hac]
        simp only [replaceFuel, hsw, Bool.false_eq_true, if_false, List.map_cons]
        rw [if_neg (Ne.symm hac), ih f hlen]

theorem pyReplaceL_single_empty (a : Char) (l : List Char) :
    pyReplaceL [a] [] l = l.filter (fun c => !(c == a)) :=
  replaceFuel_single_empty a l l.length le_rfl

theorem pyReplaceL_single_map (a b : Char) (l : List Char) :
    pyReplaceL [a] [b] l = l.map (fun c => if c = a then b else c) :=
  replaceFuel_single_map a b l l.length le_rfl

/-! Facts about whitespace stripping and digit spans. -/

theorem dropWhile_of_all_false {p : Char → Bool} :
    ∀ l : List Char, (∀ c ∈ l, p c = false) → l.dropWhile p = l := by
  intro l h
  cases l with
  | nil => rfl
  | cons c cs => rw [List.dropWhile_cons, h c (List.mem_cons_self _ _)]; simp

theorem takeWhile_of_all_true {p : Char → Bool} :
    ∀ l : List Char, (∀ c ∈ l, p c = true) →
      l.takeWhile p = l ∧ l.dropWhile p = [] := by
  intro l
  induction l with
  | nil => intro _; exact ⟨rfl, rfl⟩
  | cons c cs ih =>
    intro h
    have hc := h c (List.mem_cons_self _ _)
    have hrest := ih (fun x hx => h x (List.mem_cons_of_mem _ hx))
    rw [List.takeWhile_cons, List.dropWhile_cons, hc]
    simp [hrest.1, hrest.2]

theorem stripWs_all_nonspace (l : List Char) (h : ∀ c ∈ l, isPySpace c = false) :
    stripWs l = l := by
  rw [stripWs, dropWhile_of_all_false l h,
    dropWhile_of_all_false _ (fun c hc => h c (List.mem_reverse.mp hc)), List.reverse_reverse]

theorem stripWs_space_cons (t : List Char) (h : ∀ c ∈ t, isPySpace c = false) :
    stripWs (' ' :: t) = t := by
  have h2 : List.dropWhile isPySpace (' ' :: t) = t := by
    rw [List.dropWhile_cons, if_pos (by decide : isPySpace ' ' = true),
      dropWhile_of_all_false t h]
  rw [stripWs, h2, dropWhile_of_all_false _ (fun c hc => h c (List.mem_reverse.mp hc)),
    List.reverse_reverse]

theorem span_digits_append (l1 : List Char) (x : Char) (l2 : List Char)
    (h1 : ∀ c ∈ l1, isDigitCh c = true) (hx : isDigitCh x = false) :
    (l1 ++ x :: l2).takeWhile isDigitCh = l1 ∧ (l1 ++ x :: l2).dropWhile isDigitCh = x :: l2 := by
  induction l1 with
  | nil =>
    simp only [List.nil_append]
    rw [List.takeWhile_cons, List.dropWhile_cons, hx]
    simp
  | cons c cs ih =>
    have hc := h1 c (List.mem_cons_self _ _)
    have hrest := ih (fun y hy => h1 y (List.mem_cons_of_mem _ hy))
    simp only [List.cons_append]
    rw [List.takeWhile_cons, List.dropWhile_cons, hc]
    simp [hrest.1, hrest.2]

/-! Facts about thousands grouping. -/

theorem group3rev_mem (sep : Char) :
    ∀ (n : ℕ) (l : List Char), l.length ≤ n → ∀ c ∈ group3rev sep l, c = sep ∨ c ∈ l := by
  intro n
  induction n with
  | zero =>
    intro l hl c hc
    match l with
    | [] => exact Or.inr hc
    | x :: xs => simp at hl
  | succ n ih =>
    intro l hl c hc
    match l with
    | [] => exact Or.inr hc
    | [a] => exact Or.inr hc
    | [a, b] => exact Or.inr hc
    | [a, b, d] => exact Or.inr hc
    | a :: b :: d :: e :: rest =>
      rw [show group3rev sep (a :: b :: d :: e :: rest) =
        a :: b :: d :: sep :: group3rev sep (e :: rest) from rfl] at hc
      simp only [List.mem_cons] at hc ⊢
      rcases hc with rfl | rfl | rfl | rfl | hc
      · exact Or.inr (Or.inl rfl)
      · exact Or.inr (Or.inr (Or.inl rfl))
      · exact Or.inr (Or.inr (Or.inr (Or.inl rfl)))
      · exact Or.inl rfl
      · have hlen : (e :: rest).length ≤ n := by
          simp only [List.length_cons] at hl ⊢
          omega
        rcases ih (e :: rest) hlen c hc with h | h
        · exact Or.inl h
        · simp only [List.mem_cons] at h
          rcases h with rfl | h
          · exact Or.inr (Or.inr (Or.inr (Or.inr (Or.inl rfl))))
          · exact Or.inr (Or.inr (Or.inr (Or.inr (Or.inr h))))

theorem group3rev_filter (sep : Char) :
    ∀ (n : ℕ) (l : List Char), l.length ≤ n →
      (group3rev sep l).filter (fun c => !(c == sep)) = l.filter (fun c => !(c == sep)) := by
  intro n
  induction n with
  | zero =>
    intro l hl
    match l with
    | [] => rfl
    | x :: xs => simp at hl
  | succ n ih =>
    intro l hl
    match l with
    | [] => rfl
    | [a] => rfl
    | [a, b] => rfl
    | [a, b, d] => rfl
    | a :: b :: d :: e :: rest =>
      have hlen : (e :: rest).length ≤ n := by
        simp only [List.length_cons] at hl ⊢
        omega
      have hsepG : List.filter (fun c => !(c == sep)) (sep :: group3rev sep (e :: rest)) =
          List.filter (fun c => !(c == sep)) (group3rev sep (e :: rest)) := by
        rw [List.filter_cons]
        simp
      rw [show group3rev sep (a :: b :: d :: e :: rest) =
          a :: b :: d :: sep :: group3rev sep (e :: rest) from rfl,
        show (a :: b :: d :: sep :: group3rev sep (e :: rest) : List Char) =
          [a, b, d] ++ sep :: group3rev sep (e :: rest) from rfl,
        show (a :: b :: d :: e :: rest : List Char) = [a, b, d] ++ e :: rest from rfl,
        List.filter_append, List.filter_append, hsepG, ih (e :: rest) hlen]

theorem insertSep_filter_self (sep : Char) (l : List Char) (h : ∀ c ∈ l, c ≠ sep) :
    (insertSep sep l).filter (fun c => !(c == sep)) = l := by
  rw [insertSep, List.filter_reverse,
    group3rev_filter sep l.reverse.length l.reverse le_rfl]
  have hall : ∀ c ∈ l.reverse, (fun c => !(c == sep)) c = true := by
    intro c hc
    simp [h c (List.mem_reverse.mp hc)]
  rw [List.filter_eq_self.mpr hall, List.reverse_reverse]

theorem insertSep_mem (sep : Char) (l : List Char) :
    ∀ c ∈ insertSep sep l, c = sep ∨ c ∈ l := by
  intro c hc
  rw [insertSep, List.mem_reverse] at hc
  rcases group3rev_mem sep l.reverse.length l.reverse le_rfl c hc with h | h
  · exact Or.inl h
  · exact Or.inr (List.mem_reverse.mp h)

theorem map_if_id (a b : Char) (l : List Char) (h : ∀ c ∈ l, c ≠ a) :
    l.map (fun c => if c = a then b else c) = l := by
  have h2 : ∀ c ∈ l, (fun c => if c = a then b else c) c = id c := by
    intro c hc
    simp only [id]
    exact if_neg (h c hc)
  rw [List.map_congr_left h2, List.map_id]

/-! Pointwise character facts used along the limpar_moeda chain. -/

theorem digitChar_ne_R : ∀ k, k < 10 → digitChar k ≠ 'R' := by decide

theorem digitChar_ne_dot : ∀ k, k < 10 → digitChar k ≠ '.' := by decide

theorem digitChar_ne_comma : ∀ k, k < 10 → digitChar k ≠ ',' := by decide

theorem digitChar_not_space : ∀ k, k < 10 → isPySpace (digitChar k) = false := by decide

theorem digitChar_ne_plus : ∀ k, k < 10 → digitChar k ≠ '+' := by decide

theorem digitChar_ne_minus : ∀ k, k < 10 → digitChar k ≠ '-' := by decide

theorem digitChar_ne_n : ∀ k, k < 10 → digitChar k ≠ 'n' := by decide

theorem digitChar_ne_i : ∀ k, k < 10 → digitChar k ≠ 'i' := by decide

/-! The four stages of cleanCurrency on a canonical currency string. -/

theorem replaceFuel_RS (t : List Char) (f : ℕ) (h : 'R' ∉ t) :
    replaceFuel ['R', '$'] [] (f + 1) ('R' :: '$' :: t) = t := by
  have hsw : listStartsWith ['R', '$'] ('R' :: '$' :: t) = true := by
    simp [listStartsWith]
  simp only [replaceFuel, hsw, if_true, List.nil_append, List.length_cons, List.length_nil,
    List.drop_succ_cons, List.drop_zero]
  exact replaceFuel_no_occur _ _ t f h

theorem cleanCurrency_mkCanonical (sym : Bool) (n c : ℕ) (hc : c < 100) :
    cleanCurrency (mkCanonical sym n c) = natToDigits n ++ '.' :: twoDig c := by
  have hAmem := natToDigits_mem n
  have hTmem := twoDig_mem c hc
  have hbody : ∀ x ∈ insertSep '.' (natToDigits n) ++ ',' :: twoDig c,
      (∃ k, k < 10 ∧ x = digitChar k) ∨ x = '.' ∨ x = ',' := by
    intro x hx
    rcases List.mem_append.mp hx with hx | hx
    · rcases insertSep_mem '.' (natToDigits n) x hx with h | h
      · exact Or.inr (Or.inl h)
      · exact Or.inl (hAmem x h)
    · rcases List.mem_cons.mp hx with rfl | h
      · exact Or.inr (Or.inr rfl)
      · exact Or.inl (hTmem x h)
  have hnoR : 'R' ∉ ' ' :: (insertSep '.' (natToDigits n) ++ ',' :: twoDig c) := by
    intro hmem
    rcases List.mem_cons.mp hmem with h | h
    · cases h
    · rcases hbody 'R' h with ⟨k, hk, he⟩ | h | h
      · exact digitChar_ne_R k hk he.symm
      · cases h
      · cases h
  have h1 : pyReplaceL ['R', '$'] [] (mkCanonical sym n c).toList =
      (if sym then [' '] else []) ++ (insertSep '.' (natToDigits n) ++ ',' :: twoDig c) := by
    cases sym with
    | true =>
      show replaceFuel ['R', '$'] []
          (('R' :: '$' :: ' ' :: (insertSep '.' (natToDigits n) ++ ',' :: twoDig c)).length)
          ('R' :: '$' :: ' ' :: (insertSep '.' (natToDigits n) ++ ',' :: twoDig c)) = _
      exact replaceFuel_RS _ _ hnoR
    | false =>
      show replaceFuel ['R', '$'] [] _ (insertSep '.' (natToDigits n) ++ ',' :: twoDig c) = _
      apply replaceFuel_no_occur
      intro hmem
      exact hnoR (List.mem_cons_of_mem _ hmem)
  have h2 : pyReplaceL ['.'] []
      ((if sym then [' '] else []) ++ (insertSep '.' (natToDigits n) ++ ',' :: twoDig c)) =
      (if sym then [' '] else []) ++ (natToDigits n ++ ',' :: twoDig c) := by
    rw [pyReplaceL_single_empty, List.filter_append, List.filter_append]
    have hpre : List.filter (fun c => !(c == '.')) (if sym then [' '] else []) =
        (if sym then [' '] else []) := by
      cases sym <;> decide
    have hA : List.filter (fun c => !(c == '.')) (insertSep '.' (natToDigits n)) =
        natToDigits n := by
      apply insertSep_filter_self
      intro x hx
      obtain ⟨k, hk, rfl⟩ := hAmem x hx
      exact digitChar_ne_dot k hk
    have hT : List.filter (fun c => !(c == '.')) (',' :: twoDig c) = ',' :: twoDig c := by
      apply List.filter_eq_self.mpr
      intro x hx
      rcases List.mem_cons.mp hx with rfl | hx
      · decide
      · obtain ⟨k, hk, rfl⟩ := hTmem x hx
        simp [digitChar_ne_dot k hk]
    rw [hpre, hA, hT]
  have h3 : pyReplaceL [','] ['.']
      ((if sym then [' '] else []) ++ (natToDigits n ++ ',' :: twoDig c)) =
      (if sym then [' '] else []) ++ (natToDigits n ++ '.' :: twoDig c) := by
    rw [pyReplaceL_single_map, List.map_append, List.map_append, List.map_cons]
    have hpre : List.map (fun c => if c = ',' then '.' else c) (if sym then [' '] else []) =
        (if sym then [' '] else []) := by
      cases sym <;> decide
    have hA : List.map (fun c => if c = ',' then '.' else c) (natToDigits n) = natToDigits n := by
      apply map_if_id
      intro x hx
      obtain ⟨k, hk, rfl⟩ := hAmem x hx
      exact digitChar_ne_comma k hk
    have hT : List.map (fun c => if c = ',' then '.' else c) (twoDig c) = twoDig c := by
      apply map_if_id
      intro x hx
      obtain ⟨k, hk, rfl⟩ := hTmem x hx
      exact digitChar_ne_comma k hk
    rw [hpre, hA, hT, if_pos rfl]
  have htail_nonspace : ∀ x ∈ natToDigits n ++ '.' :: twoDig c, isPySpace x = false := by
    intro x hx
    rcases List.mem_append.mp hx with hx | hx
    · obtain ⟨k, hk, rfl⟩ := hAmem x hx
      exact digitChar_not_space k hk
    · rcases List.mem_cons.mp hx with rfl | hx
      · decide
      · obtain ⟨k, hk, rfl⟩ := hTmem x hx
        exact digitChar_not_space k hk
  have h4 : stripWs ((if sym then [' '] else []) ++ (natToDigits n ++ '.' :: twoDig c)) =
      natToDigits n ++ '.' :: twoDig c := by
    cases sym with
    | true => exact stripWs_space_cons _ htail_nonspace
    | false => exact stripWs_all_nonspace _ htail_nonspace
  show stripWs (pyReplaceL [','] ['.'] (pyReplaceL ['.'] []
    (pyReplaceL ['R', '$'] [] (mkCanonical sym n c).toList))) = _
  rw [h1, h2, h3, h4]

/-! Correctness of the float() model on plain digits-dot-digits inputs. -/

theorem parseDecimal_digits_dot (A T : List Char) (hA : A ≠ [])
    (hAd : ∀ x ∈ A, isDigitCh x = true) (hTd : ∀ x ∈ T, isDigitCh x = true) :
    parseDecimal (A ++ '.' :: T) =
      Option.some ((digitsToNat A : ℚ) + (digitsToNat T : ℚ) / (10 : ℚ) ^ T.length) := by
  obtain ⟨hTake, hDrop⟩ := span_digits_append A '.' T hAd (by decide)
  obtain ⟨hTk, hDr⟩ := takeWhile_of_all_true T hTd
  simp [parseDecimal, hTake, hDrop, hTk, hDr, hA]

theorem pyFloatL_digits_dot (A T : List Char)
    (hAm : ∀ x ∈ A, ∃ k, k < 10 ∧ x = digitChar k)
    (hTm : ∀ x ∈ T, ∃ k, k < 10 ∧ x = digitChar k)
    (hA : A ≠ []) :
    pyFloatL (A ++ '.' :: T) =
      Option.some (PyNum.finite
        ((digitsToNat A : ℚ) + (digitsToNat T : ℚ) / (10 : ℚ) ^ T.length)) := by
  have hAd : ∀ x ∈ A, isDigitCh x = true := by
    intro x hx
    obtain ⟨k, hk, rfl⟩ := hAm x hx
    exact digitChar_digit k hk
  have hTd : ∀ x ∈ T, isDigitCh x = true := by
    intro x hx
    obtain ⟨k, hk, rfl⟩ := hTm x hx
    exact digitChar_digit k hk
  have hnon : ∀ x ∈ A ++ '.' :: T, isPySpace x = false := by
    intro x hx
    rcases List.mem_append.mp hx with hx | hx
    · obtain ⟨k, hk, rfl⟩ := hAm x hx
      exact digitChar_not_space k hk
    · rcases List.mem_cons.mp hx with rfl | hx
      · decide
      · obtain ⟨k, hk, rfl⟩ := hTm x hx
        exact digitChar_not_space k hk
  obtain ⟨a, As, rfl⟩ : ∃ a As, A = a :: As := by
    cases A with
    | nil => cases hA rfl
    | cons a As => exact ⟨a, As, rfl⟩
  obtain ⟨k, hk, ha⟩ := hAm a (List.mem_cons_self _ _)
  subst ha
  have hstrip : stripWs ((digitChar k :: As) ++ '.' :: T) = (digitChar k :: As) ++ '.' :: T :=
    stripWs_all_nonspace _ hnon
  have hhead : ((digitChar k :: As) ++ '.' :: T).head? = Option.some (digitChar k) := rfl
  simp only [pyFloatL]
  rw [hstrip]
  have h1 : ¬ (((digitChar k :: As) ++ '.' :: T).head? = Option.some '+') := by
    rw [hhead]
    simp [digitChar_ne_plus k hk]
  have h2 : ¬ (((digitChar k :: As) ++ '.' :: T).head? = Option.some '-') := by
    rw [hhead]
    simp [digitChar_ne_minus k hk]
  rw [if_neg h1, if_neg h2]
  have hmapcons : ((digitChar k :: As) ++ '.' :: T).map Char.toLower =
      Char.toLower (digitChar k) :: (As ++ '.' :: T).map Char.toLower := rfl
  have hn : ¬ (((digitChar k :: As) ++ '.' :: T).map Char.toLower = ['n', 'a', 'n']) := by
    rw [hmapcons]
    intro h
    injection h with hhd _
    rw [digitChar_toLower k hk] at hhd
    exact digitChar_ne_n k hk hhd
  have hi : ¬ (((digitChar k :: As) ++ '.' :: T).map Char.toLower = ['i', 'n', 'f'] ∨
      ((digitChar k :: As) ++ '.' :: T).map Char.toLower =
        ['i', 'n', 'f', 'i', 'n', 'i', 't', 'y']) := by
    intro h
    rcases h with h | h <;>
    · rw [hmapcons] at h
      injection h with hhd _
      rw [digitChar_toLower k hk] at hhd
      exact digitChar_ne_i k hk hhd
  rw [if_neg hn, if_neg hi,
    parseDecimal_digits_dot (digitChar k :: As) T (by simp) hAd hTd]
  simp

/-- C1: limpar_moeda returns numeric inputs unchanged; on every canonical
currency string (optional "R$ " symbol, '.' thousands grouping, ',' decimal
separator with two decimal digits) it returns the denoted value; and on every
string whose cleaned form float() rejects it returns 0.0 — it is a total
function, so it never raises. -/
theorem limpar_moeda_spec :
    (∀ x : PyNum, limpar_moeda (PyValue.num x) = x) ∧
    (∀ (sym : Bool) (n c : ℕ), c < 100 →
      limpar_moeda (PyValue.str (mkCanonical sym n c)) =
        PyNum.finite ((n : ℚ) + (c : ℚ) / 100)) ∧
    (∀ s : String, pyFloatL (cleanCurrency s) = Option.none →
      limpar_moeda (PyValue.str s) = PyNum.finite 0) := by
  refine ⟨fun x => rfl, ?_, ?_⟩
  · intro sym n c hc
    have hparse := pyFloatL_digits_dot (natToDigits n) (twoDig c)
      (natToDigits_mem n) (twoDig_mem c hc) (natToDigits_ne_nil n)
    have hval : ((digitsToNat (natToDigits n) : ℚ) +
        (digitsToNat (twoDig c) : ℚ) / (10 : ℚ) ^ (twoDig c).length) =
        (n : ℚ) + (c : ℚ) / 100 := by
      rw [digitsToNat_natToDigits, digitsToNat_twoDig c hc,
        show (twoDig c).length = 2 from rfl]
      norm_num
    simp only [limpar_moeda, pyStr]
    rw [cleanCurrency_mkCanonical sym n c hc, hparse, hval]
  · intro s hnone
    simp only [limpar_moeda, pyStr]
    rw [hnone]

/-- Witness for C1: the canonical string "R$ 1.234,56" normalizes to 1234.56
and the malformed string "abc" normalizes to 0.0. -/
theorem limpar_moeda_spec_witness :
    (56 < 100 ∧ limpar_moeda (PyValue.str (mkCanonical true 1234 56)) =
      PyNum.finite ((1234 : ℚ) + (56 : ℚ) / 100)) ∧
    (pyFloatL (cleanCurrency "abc") = Option.none ∧
      limpar_moeda (PyValue.str "abc") = PyNum.finite 0) :=
  ⟨⟨by decide, limpar_moeda_spec.2.1 true 1234 56 (by decide)⟩,
   ⟨by decide, limpar_moeda_spec.2.2 "abc" (by decide)⟩⟩

/-! The display-format bug and the amount invariants. -/

theorem rheNat_natCast (n : ℕ) : rheNat (n : ℚ) = n := by
  simp only [rheNat, Rat.num_natCast, Rat.den_natCast, Int.toNat_natCast, Nat.div_one]
  rw [sub_self]
  norm_num

/-- C2 (code_bug witness computation): the transformer's display format
f"R$ {v:,.2f}".replace('.', ',') renders 1234.56 as "R$ 1,234,56" — the
thousands separator stays a comma because only '.' is replaced — and not as
the claimed "R$ 1.234,56". -/
theorem brl_format_bug :
    brlFmt (PyNum.finite (123456 / 100)) = "R$ 1,234,56" ∧
    brlFmt (PyNum.finite (123456 / 100)) ≠ "R$ 1.234,56" := by
  have hq : ¬ ((123456 / 100 : ℚ) < 0) := by norm_num
  have habs : |(123456 / 100 : ℚ)| * 100 = ((123456 : ℕ) : ℚ) := by
    rw [abs_of_nonneg (by norm_num)]
    norm_num
  have hfmt : formatComma2f (PyNum.finite (123456 / 100)) = "1,234.56" := by
    simp only [formatComma2f]
    rw [if_neg hq, habs, rheNat_natCast]
    decide
  constructor
  · simp only [brlFmt, hfmt]
    decide
  · simp only [brlFmt, hfmt]
    decide

/-- C3 counterexample: a numeric amount cell holding -10 passes through
limpar_moeda unchanged, so the canonical amountDue is negative, refuting the
claimed non-negativity invariant. -/
theorem amounts_nonneg_counterexample :
    amountField [("V. Devido", PyValue.num (PyNum.finite (-10)))] "V. Devido" =
      PyNum.finite (-10) ∧ ((-10 : ℚ) < 0) := by
  constructor
  · rfl
  · norm_num

/-- C3 (amended): the three canonical amounts are always present (total
functions of the row) and default to 0.0 whenever the amount column is absent
or its cell is text that float() rejects after cleaning; they are however not
clamped, so negative source values pass through. -/
theorem amounts_default_spec :
    ∀ (row : Row) (col : String),
      (containsKey row col = false → amountField row col = PyNum.finite 0) ∧
      (∀ s : String, rowLookup row col = Option.some (PyValue.str s) →
        pyFloatL (cleanCurrency s) = Option.none → amountField row col = PyNum.finite 0) := by
  intro row col
  constructor
  · intro habs
    have hnone : rowLookup row col = Option.none := by
      cases h : rowLookup row col with
      | none => rfl
      | some v => rw [containsKey, h] at habs; simp at habs
    rw [amountField, rowGetD, hnone, Option.getD_none]
    rfl
  · intro s hlook hnone
    rw [amountField, rowGetD, hlook, Option.getD_some]
    simp only [limpar_moeda, pyStr]
    rw [hnone]

/-- Witness for C3 (amended): the absent column and a malformed text cell
both yield the canonical amount 0.0. -/
theorem amounts_default_spec_witness :
    (containsKey [] "V. Devido" = false ∧ amountField [] "V. Devido" = PyNum.finite 0) ∧
    (rowLookup [("V. Devido", PyValue.str "xy,z")] "V. Devido" =
        Option.some (PyValue.str "xy,z") ∧
      pyFloatL (cleanCurrency "xy,z") = Option.none ∧
      amountField [("V. Devido", PyValue.str "xy,z")] "V. Devido" = PyNum.finite 0) :=
  ⟨⟨by decide, (amounts_default_spec [] "V. Devido").1 (by decide)⟩,
   ⟨by decide, by decide,
    (amounts_default_spec [("V. Devido", PyValue.str "xy,z")] "V. Devido").2 "xy,z"
      (by decide) (by decide)⟩⟩

/-! Characterisation of the two name-resolution loops. -/

theorem pass1_eq_find (cols : List String) (row : Row) :
    ∀ bs : List String, pass1 cols row bs =
      (match bs.find? (fun b => cols.contains b && pdNotna (rowGet row b)) with
       | Option.some b => rowGet row b
       | Option.none => PyValue.str "Consumidor") := by
  intro bs
  induction bs with
  | nil => rfl
  | cons b bs ih =>
    have hstep : pass1 cols row (b :: bs) =
        if (cols.contains b && pdNotna (rowGet row b)) = true then rowGet row b
        else pass1 cols row bs := rfl
    rw [hstep]
    simp only [List.find?_cons]
    by_cases h : (cols.contains b && pdNotna (rowGet row b)) = true
    · rw [if_pos h, h]
    · have hf : (cols.contains b && pdNotna (rowGet row b)) = false := by
        simpa using h
      rw [if_neg h, ih, hf]

theorem pass2_eq_find (row : Row) :
    ∀ cs : List String, pass2 row cs =
      (cs.find? (fun c => fallbackKeys.contains (normHeader c) &&
        pdNotna (rowGet row c))).map (fun c => rowGet row c) := by
  intro cs
  induction cs with
  | nil => rfl
  | cons c cs ih =>
    have hstep : pass2 row (c :: cs) =
        if fallbackKeys.contains (normHeader c) = true then
          (if pdNotna (rowGet row c) = true then Option.some (rowGet row c) else pass2 row cs)
        else pass2 row cs := rfl
    rw [hstep]
    simp only [List.find?_cons]
    by_cases h1 : fallbackKeys.contains (normHeader c) = true
    · by_cases h2 : pdNotna (rowGet row c) = true
      · have hp : (fallbackKeys.contains (normHeader c) && pdNotna (rowGet row c)) = true := by
          rw [h1, h2]
          rfl
        rw [if_pos h1, if_pos h2, hp]
        rfl
      · have h2f : pdNotna (rowGet row c) = false := by
          simpa using h2
        have hf : (fallbackKeys.contains (normHeader c) && pdNotna (rowGet row c)) = false := by
          rw [h2f, Bool.and_false]
        rw [if_pos h1, if_neg h2, ih, hf]
    · have h1f : fallbackKeys.contains (normHeader c) = false := by
        simpa using h1
      have hf : (fallbackKeys.contains (normHeader c) && pdNotna (rowGet row c)) = false := by
        rw [h1f, Bool.false_and]
      rw [if_neg h1, ih, hf]

/-- C4 counterexample: with columns [Cliente, Nome], Cliente = "" and
Nome = "Consumidor", the code resolves "" — pass 1 accepted the value
'Consumidor' from the higher-priority Nome column, which re-triggered the
fallback pass, and the fallback accepted the empty Cliente cell — while the
resolution claimed by the spec returns "Consumidor". -/
theorem resolveNome_claim_counterexample :
    resolveNome ["Cliente", "Nome"]
        [("Cliente", PyValue.str ""), ("Nome", PyValue.str "Consumidor")] = PyValue.str "" ∧
    resolveNomeClaimed ["Cliente", "Nome"]
        [("Cliente", PyValue.str ""), ("Nome", PyValue.str "Consumidor")] =
      PyValue.str "Consumidor" ∧
    resolveNome ["Cliente", "Nome"]
        [("Cliente", PyValue.str ""), ("Nome", PyValue.str "Consumidor")] ≠
      resolveNomeClaimed ["Cliente", "Nome"]
        [("Cliente", PyValue.str ""), ("Nome", PyValue.str "Consumidor")] :=
  ⟨by decide, by decide, by decide⟩

/-- C4 (amended): pass 1 checks the exact candidates strictly in priority
order and returns the first whose header is among the columns and whose cell
is notna — an empty string qualifies; the fallback pass runs exactly when the
value after pass 1 equals 'Consumidor' (whether as the untouched placeholder
or as a found cell value), and its first normalized-header hit with a notna
cell, if any, replaces that value. -/
theorem resolveNome_spec (cols : List String) (row : Row) :
    resolveNome cols row =
      (let p1 :=
        match buscas.find? (fun b => cols.contains b && pdNotna (rowGet row b)) with
        | Option.some b => rowGet row b
        | Option.none => PyValue.str "Consumidor"
      if p1 = PyValue.str "Consumidor" then
        match cols.find? (fun c => fallbackKeys.contains (normHeader c) &&
            pdNotna (rowGet row c)) with
        | Option.some c => rowGet row c
        | Option.none => p1
      else p1) := by
  simp only [resolveNome, pass1_eq_find cols row buscas, pass2_eq_find row cols]
  cases hf : buscas.find? (fun b => cols.contains b && pdNotna (rowGet row b)) with
  | none =>
    cases hg : cols.find? (fun c => fallbackKeys.contains (normHeader c) &&
        pdNotna (rowGet row c)) with
    | none => simp
    | some c => simp
  | some b =>
    by_cases hb : rowGet row b = PyValue.str "Consumidor"
    · cases hg : cols.find? (fun c => fallbackKeys.contains (normHeader c) &&
          pdNotna (rowGet row c)) with
      | none => simp [hb]
      | some c => simp [hb]
    · simp [hb]

/-- C5 counterexample: a row holding only a CPF column: the record's taxId
resolves to "123" through the CPF fallback, but responsibleTaxId — whose
default chain only consults CPF/CNPJ — resolves to the placeholder "-", so
the two differ although 'CPF Resp' is absent. -/
theorem cpfResp_claim_counterexample :
    containsKey [("CPF", PyValue.str "123")] "CPF Resp" = false ∧
    cpfRespField [("CPF", PyValue.str "123")] = PyValue.str "-" ∧
    cpfField [("CPF", PyValue.str "123")] = PyValue.str "123" ∧
    cpfRespField [("CPF", PyValue.str "123")] ≠ cpfField [("CPF", PyValue.str "123")] :=
  ⟨by decide, by decide, by decide, by decide⟩

/-- C5 (amended): when the row has no 'CPF Resp' column, responsibleTaxId is
the 'CPF/CNPJ' cell when that column is present and the placeholder '-'
otherwise; unlike taxId it never falls back to the 'CPF' column. -/
theorem cpfResp_absent_spec :
    ∀ row : Row, containsKey row "CPF Resp" = false →
      (containsKey row "CPF/CNPJ" = false → cpfRespField row = PyValue.str "-") ∧
      (∀ v : PyValue, rowLookup row "CPF/CNPJ" = Option.some v → cpfRespField row = v) := by
  intro row habs
  have habs2 : rowLookup row "CPF Resp" = Option.none := by
    cases h : rowLookup row "CPF Resp" with
    | none => rfl
    | some v => rw [containsKey, h] at habs; simp at habs
  constructor
  · intro hcc
    have hcc2 : rowLookup row "CPF/CNPJ" = Option.none := by
      cases h : rowLookup row "CPF/CNPJ" with
      | none => rfl
      | some v => rw [containsKey, h] at hcc; simp at hcc
    rw [cpfRespField, rowGetD, habs2, Option.getD_none, rowGetD, hcc2, Option.getD_none]
  · intro v hv
    rw [cpfRespField, rowGetD, habs2, Option.getD_none, rowGetD, hv, Option.getD_some]

/-- Witness for C5 (amended): with no CPF/CNPJ column the field is "-"; with
a CPF/CNPJ cell "99" the field is that cell. -/
theorem cpfResp_absent_spec_witness :
    (containsKey [("CPF", PyValue.str "123")] "CPF/CNPJ" = false ∧
      cpfRespField [("CPF", PyValue.str "123")] = PyValue.str "-") ∧
    (rowLookup [("CPF/CNPJ", PyValue.str "99")] "CPF/CNPJ" =
        Option.some (PyValue.str "99") ∧
      cpfRespField [("CPF/CNPJ", PyValue.str "99")] = PyValue.str "99") :=
  ⟨⟨by decide, (cpfResp_absent_spec [("CPF", PyValue.str "123")] (by decide)).1 (by decide)⟩,
   ⟨by decide, (cpfResp_absent_spec [("CPF/CNPJ", PyValue.str "99")] (by decide)).2
      (PyValue.str "99") (by decide)⟩⟩

/-! The date policies. -/

/-- C6: under 'escolher' with customDate "2024-03-05" the resolved emission
date is "05/03/2024" for every row; with any customDate that strptime
rejects, the resolved date equals the 'atual' (current-date) value at the
same instant — the resolver is total, so the parse failure is silent and
raises nothing. -/
theorem resolveDate_custom_spec :
    ∀ (today : Date) (cols : List String) (row : Row),
      resolveDate "escolher" "2024-03-05" today cols row = "05/03/2024" ∧
      (∀ s : String, strptimeYMD s = Option.none →
        resolveDate "escolher" s today cols row = resolveDate "atual" "" today cols row) := by
  intro today cols row
  constructor
  · unfold resolveDate
    rw [if_pos (⟨rfl, by decide⟩ : ("escolher" = "escolher" ∧ "2024-03-05" ≠ "")),
      show strptimeYMD "2024-03-05" = Option.some ⟨2024, 3, 5⟩ from by decide]
    exact (show fmtDMY ⟨2024, 3, 5⟩ = "05/03/2024" from by decide)
  · intro s hs
    by_cases hemp : s = ""
    · subst hemp
      simp [resolveDate]
    · unfold resolveDate
      rw [if_pos (⟨rfl, hemp⟩ : ("escolher" = "escolher" ∧ s ≠ "")), hs]
      simp

/-- Witness for C6: the parse succeeds on "2024-03-05" and fails silently on
"not-a-date", falling back to the current date. -/
theorem resolveDate_custom_spec_witness :
    resolveDate "escolher" "2024-03-05" ⟨2025, 6, 7⟩ ["Data"]
      [("Data", PyValue.str "x")] = "05/03/2024" ∧
    (strptimeYMD "not-a-date" = Option.none ∧
      resolveDate "escolher" "not-a-date" ⟨2025, 6, 7⟩ [] [] =
        resolveDate "atual" "" ⟨2025, 6, 7⟩ [] []) :=
  ⟨(resolveDate_custom_spec ⟨2025, 6, 7⟩ ["Data"] [("Data", PyValue.str "x")]).1,
   ⟨by decide, (resolveDate_custom_spec ⟨2025, 6, 7⟩ [] []).2 "not-a-date" (by decide)⟩⟩

/-- C10: for every dateMode other than 'venda' and other than 'escolher'
with a nonempty custom date — including the default 'atual' taken when the
form field is missing, and any unrecognized string — the resolved emission
date is the processing date formatted DD/MM/YYYY; the dispatch is a total
function, so it never fails. -/
theorem resolveDate_default_spec :
    (∀ (modo custom : String) (today : Date) (cols : List String) (row : Row),
      modo ≠ "venda" → (modo = "escolher" → custom = "") →
      resolveDate modo custom today cols row = fmtDMY today) ∧
    (∀ (form : List (String × String)) (custom : String) (today : Date)
        (cols : List String) (row : Row),
      form.lookup "modoData" = Option.none → custom = "" →
      resolveDate (formGetD form "modoData" "atual") custom today cols row = fmtDMY today) := by
  constructor
  · intro modo custom today cols row hv he
    have h1 : ¬ (modo = "escolher" ∧ custom ≠ "") := by
      rintro ⟨rfl, hne⟩
      exact hne (he rfl)
    unfold resolveDate
    rw [if_neg h1, if_neg hv]
  · intro form custom today cols row hnone hcust
    subst hcust
    have hdef : formGetD form "modoData" "atual" = "atual" := by
      rw [formGetD, hnone, Option.getD_none]
    rw [hdef]
    simp [resolveDate]

/-- Witness for C10: an unrecognized mode string and the missing-field
default both resolve to the formatted current date. -/
theorem resolveDate_default_spec_witness :
    resolveDate "qualquer" "2024-03-05" ⟨2025, 6, 7⟩ [] [] = fmtDMY ⟨2025, 6, 7⟩ ∧
    resolveDate (formGetD [] "modoData" "atual") "" ⟨2025, 6, 7⟩ [] [] = fmtDMY ⟨2025, 6, 7⟩ :=
  ⟨resolveDate_default_spec.1 "qualquer" "2024-03-05" ⟨2025, 6, 7⟩ [] []
      (by decide) (fun h => absurd h (by decide)),
   resolveDate_default_spec.2 [] "" ⟨2025, 6, 7⟩ [] [] rfl rfl⟩

/-! The rendered sheet versus the record fields. -/

/-- C7 counterexample: on a row with no Espécie and no Título column the
rendered line-item description is "Serviço - " (the renderer defaults
Espécie to 'Serviço' and Título to the empty string), while the record
carries especie 'NF-e' and titulo 'Serviço', whose join is "NF-e - Serviço":
the rendered description is not built from the record's fields. -/
theorem descricao_claim_counterexample :
    (processRow "atual" "" ⟨2024, 1, 1⟩ [] 0 []).2.descricao = "Serviço - " ∧
    pyStr (processRow "atual" "" ⟨2024, 1, 1⟩ [] 0 []).1.especie ++ " - " ++
      pyStr (processRow "atual" "" ⟨2024, 1, 1⟩ [] 0 []).1.titulo = "NF-e - Serviço" ∧
    (processRow "atual" "" ⟨2024, 1, 1⟩ [] 0 []).2.descricao ≠
      pyStr (processRow "atual" "" ⟨2024, 1, 1⟩ [] 0 []).1.especie ++ " - " ++
        pyStr (processRow "atual" "" ⟨2024, 1, 1⟩ [] 0 []).1.titulo :=
  ⟨by decide, by decide, by decide⟩

/-- C7 (amended): the rendered description is always the row's Espécie cell
(defaulting to 'Serviço', not 'NF-e', when the column is absent) joined by
" - " with the row's Título cell (defaulting to the empty string, not
'Serviço'); it coincides with species-dash-title from the record whenever
both columns are present; and the rendered net total is always the sheet's
gross amount minus its discount, both equal to the canonical amounts of the
row. -/
theorem render_fields_spec :
    ∀ (modo custom : String) (today : Date) (cols : List String) (i : ℕ) (row : Row),
      (processRow modo custom today cols i row).2.descricao =
        pyStr (rowGetD row "Espécie" (PyValue.str "Serviço")) ++ " - " ++
          pyStr (rowGetD row "Título" (PyValue.str "")) ∧
      (processRow modo custom today cols i row).2.liquido =
        pySub (processRow modo custom today cols i row).2.devido
          (processRow modo custom today cols i row).2.desconto ∧
      (processRow modo custom today cols i row).2.devido = amountField row "V. Devido" ∧
      (processRow modo custom today cols i row).2.desconto = amountField row "V. Desc" ∧
      (containsKey row "Espécie" = true → containsKey row "Título" = true →
        (processRow modo custom today cols i row).2.descricao =
          pyStr (processRow modo custom today cols i row).1.especie ++ " - " ++
            pyStr (processRow modo custom today cols i row).1.titulo) := by
  intro modo custom today cols i row
  refine ⟨rfl, rfl, rfl, rfl, ?_⟩
  intro he ht
  obtain ⟨ve, hve⟩ : ∃ v, rowLookup row "Espécie" = Option.some v := by
    cases h : rowLookup row "Espécie" with
    | none => rw [containsKey, h] at he; simp at he
    | some v => exact ⟨v, rfl⟩
  obtain ⟨vt, hvt⟩ : ∃ v, rowLookup row "Título" = Option.some v := by
    cases h : rowLookup row "Título" with
    | none => rw [containsKey, h] at ht; simp at ht
    | some v => exact ⟨v, rfl⟩
  have h1 : (processRow modo custom today cols i row).2.descricao = descricaoField row := rfl
  have h2 : (processRow modo custom today cols i row).1.especie =
      rowGetD row "Espécie" (PyValue.str "NF-e") := rfl
  have h3 : (processRow modo custom today cols i row).1.titulo =
      rowGetD row "Título" (PyValue.str "Serviço") := rfl
  rw [h1, h2, h3]
  simp only [descricaoField, rowGetD, hve, hvt, Option.getD_some]

/-- Witness for C7 (amended): with both columns present the rendered
description equals the record's species-dash-title. -/
theorem render_fields_spec_witness :
    containsKey [("Espécie", PyValue.str "NFS-e"), ("Título", PyValue.str "Consultoria")]
      "Espécie" = true ∧
    containsKey [("Espécie", PyValue.str "NFS-e"), ("Título", PyValue.str "Consultoria")]
      "Título" = true ∧
    (processRow "atual" "" ⟨2024, 1, 1⟩ ["Espécie", "Título"] 0
        [("Espécie", PyValue.str "NFS-e"), ("Título", PyValue.str "Consultoria")]).2.descricao =
      pyStr (processRow "atual" "" ⟨2024, 1, 1⟩ ["Espécie", "Título"] 0
        [("Espécie", PyValue.str "NFS-e"),
          ("Título", PyValue.str "Consultoria")]).1.especie ++ " - " ++
        pyStr (processRow "atual" "" ⟨2024, 1, 1⟩ ["Espécie", "Título"] 0
          [("Espécie", PyValue.str "NFS-e"), ("Título", PyValue.str "Consultoria")]).1.titulo :=
  ⟨by decide, by decide,
   (render_fields_spec "atual" "" ⟨2024, 1, 1⟩ ["Espécie", "Título"] 0
      [("Espécie", PyValue.str "NFS-e"), ("Título", PyValue.str "Consultoria")]).2.2.2.2
      (by decide) (by decide)⟩

/-! Order and shape of the output sequence. -/

theorem processar_notas_length (modo custom : String) (today : Date) (cols : List String) :
    ∀ (rows : List Row) (i : ℕ),
      (processar_notas modo custom today cols i rows).length = rows.length := by
  intro rows
  induction rows with
  | nil => intro i; rfl
  | cons r rs ih =>
    intro i
    rw [show processar_notas modo custom today cols i (r :: rs) =
      (processRow modo custom today cols i r).1 ::
        processar_notas modo custom today cols (i + 1) rs from rfl]
    simp [ih]

theorem processar_notas_getD (modo custom : String) (today : Date) (cols : List String) :
    ∀ (rows : List Row) (j i : ℕ), j < rows.length →
      (processar_notas modo custom today cols i rows).getD j defaultItem =
        (processRow modo custom today cols (i + j) (rows.getD j [])).1 := by
  intro rows
  induction rows with
  | nil => intro j i h; simp at h
  | cons r rs ih =>
    intro j i h
    rw [show processar_notas modo custom today cols i (r :: rs) =
      (processRow modo custom today cols i r).1 ::
        processar_notas modo custom today cols (i + 1) rs from rfl]
    cases j with
    | zero => simp
    | succ j =>
      rw [List.getD_cons_succ, List.getD_cons_succ,
        ih j (i + 1) (by simp only [List.length_cons] at h; omega),
        show i + 1 + j = i + (j + 1) from by omega]

/-- C8: the transformer emits exactly one record per input row, in input
order — the output length equals the input length and the record at
zero-based index i is the transform of row i — and that record's display
name is "NF-" then 1000 + i then " - " followed by at most the first 30
characters of the stringified resolved customer name. -/
theorem processar_order_spec :
    ∀ (modo custom : String) (today : Date) (cols : List String) (rows : List Row) (i : ℕ),
      i < rows.length →
      (processar_notas modo custom today cols 0 rows).length = rows.length ∧
      (processar_notas modo custom today cols 0 rows).getD i defaultItem =
        (processRow modo custom today cols i (rows.getD i [])).1 ∧
      ((processar_notas modo custom today cols 0 rows).getD i defaultItem).nome_arquivo =
        "NF-" ++ toString (1000 + i) ++ " - " ++
          (pyStr (resolveNome cols (rows.getD i []))).take 30 := by
  intro modo custom today cols rows i h
  have hlen := processar_notas_length modo custom today cols rows 0
  have hget := processar_notas_getD modo custom today cols rows i 0 h
  rw [Nat.zero_add] at hget
  exact ⟨hlen, hget, by rw [hget]; rfl⟩

/-- Witness for C8: a one-row table yields one record whose display name is
NF-1000 dash the customer name. -/
theorem processar_order_spec_witness :
    0 < ([[("Nome", PyValue.str "Alice")]] : List Row).length ∧
    ((processar_notas "atual" "" ⟨2024, 1, 1⟩ ["Nome"] 0
        [[("Nome", PyValue.str "Alice")]]).length =
      ([[("Nome", PyValue.str "Alice")]] : List Row).length ∧
     (processar_notas "atual" "" ⟨2024, 1, 1⟩ ["Nome"] 0
        [[("Nome", PyValue.str "Alice")]]).getD 0 defaultItem =
      (processRow "atual" "" ⟨2024, 1, 1⟩ ["Nome"] 0
        (([[("Nome", PyValue.str "Alice")]] : List Row).getD 0 [])).1 ∧
     ((processar_notas "atual" "" ⟨2024, 1, 1⟩ ["Nome"] 0
        [[("Nome", PyValue.str "Alice")]]).getD 0 defaultItem).nome_arquivo =
      "NF-" ++ toString (1000 + 0) ++ " - " ++
        (pyStr (resolveNome ["Nome"]
          (([[("Nome", PyValue.str "Alice")]] : List Row).getD 0 []))).take 30) :=
  ⟨by decide,
   processar_order_spec "atual" "" ⟨2024, 1, 1⟩ ["Nome"]
     [[("Nome", PyValue.str "Alice")]] 0 (by decide)⟩

/-! All-or-nothing batch semantics. -/

theorem processarE_split (render : Sheet → Except String String) (modo custom : String)
    (today : Date) (cols : List String) :
    ∀ (rows : List Row) (i : ℕ),
      (∃ l, processarE render modo custom today cols i rows = Except.ok l ∧
        l.length = rows.length) ∨
      (∃ e j, j < rows.length ∧
        processRowE render modo custom today cols (i + j) (rows.getD j []) = Except.error e ∧
        processarE render modo custom today cols i rows = Except.error e) := by
  intro rows
  induction rows with
  | nil => intro i; exact Or.inl ⟨[], rfl, rfl⟩
  | cons r rs ih =>
    intro i
    have hstep : processarE render modo custom today cols i (r :: rs) =
        (match processRowE render modo custom today cols i r with
         | Except.error e => Except.error e
         | Except.ok x =>
           match processarE render modo custom today cols (i + 1) rs with
           | Except.error e => Except.error e
           | Except.ok xs => Except.ok (x :: xs)) := rfl
    cases hr : processRowE render modo custom today cols i r with
    | error e =>
      refine Or.inr ⟨e, 0, by simp, ?_, ?_⟩
      · simpa using hr
      · rw [hstep, hr]
    | ok x =>
      rcases ih (i + 1) with ⟨l, hl, hlen⟩ | ⟨e, j, hj, hrow, hbatch⟩
      · refine Or.inl ⟨x :: l, ?_, ?_⟩
        · rw [hstep, hr, hl]
        · simp [hlen]
      · refine Or.inr ⟨e, j + 1, ?_, ?_, ?_⟩
        · simp only [List.length_cons]
          omega
        · rw [show i + (j + 1) = i + 1 + j from by omega, List.getD_cons_succ]
          exact hrow
        · rw [hstep, hr, hbatch]

/-- C9: with the renderer's possible exception abstracted as an arbitrary
render function (the loop body has no per-row handler in the source, and the
route wraps the entire loop in one try/except that returns a single error),
every batch either succeeds as a whole with exactly one record per input row
or fails as a whole with the single error raised at some row — there is no
partial output. -/
theorem processar_all_or_nothing :
    ∀ (render : Sheet → Except String String) (modo custom : String) (today : Date)
      (cols : List String) (rows : List Row),
      (∃ l, processarE render modo custom today cols 0 rows = Except.ok l ∧
        l.length = rows.length) ∨
      (∃ e j, j < rows.length ∧
        processRowE render modo custom today cols j (rows.getD j []) = Except.error e ∧
        processarE render modo custom today cols 0 rows = Except.error e) := by
  intro render modo custom today cols rows
  rcases processarE_split render modo custom today cols rows 0 with h | ⟨e, j, hj, hrow, hbatch⟩
  · exact Or.inl h
  · rw [Nat.zero_add] at hrow
    exact Or.inr ⟨e, j, hj, hrow, hbatch⟩
